import Mathlib

/-!
Verification of the plagiarism/similarity detection core of the
CAMPUS-CONNECT repository (`plagiarism_checker.py`, `plagiarism_detector.py`,
and the call site in `blueprints/student.py`).

The Python code is shallowly embedded: strings become `String`/`List Char`,
Python floats become exact rationals `ℚ` (or reals `ℝ` where square roots or
logarithms enter, in the TF-IDF/cosine layer), sets become `Finset`, and the
one fallible operation (`sklearn`'s vectorizer fit inside `check_plagiarism`)
returns `Except`.  Character classes (`\d`, `\s`, `\w`, `string.punctuation`,
`str.lower`) follow their ASCII semantics, stated over `Char.toNat`.
-/

/-! ## Character classes (ASCII semantics of the Python predicates) -/

/-- ASCII decimal digit, the class matched by the regex `\d`. -/
def isAsciiDigit (c : Char) : Bool := decide (48 ≤ c.toNat ∧ c.toNat ≤ 57)

/-- ASCII uppercase letter, the class affected by Python `str.lower`. -/
def isAsciiUpper (c : Char) : Bool := decide (65 ≤ c.toNat ∧ c.toNat ≤ 90)

/-- ASCII lowercase letter. -/
def isAsciiLower (c : Char) : Bool := decide (97 ≤ c.toNat ∧ c.toNat ≤ 122)

/-- Whitespace, the class matched by the regex `\s` and trimmed by
`str.strip`: space, tab, newline, vertical tab, form feed, carriage
return (code points 32 and 9–13). -/
def isPySpace (c : Char) : Bool :=
  decide (c.toNat = 32 ∨ (9 ≤ c.toNat ∧ c.toNat ≤ 13))

/-- Word character, the class matched by the regex `\w`:
letters, digits and underscore. -/
def isWordChar (c : Char) : Bool :=
  decide ((48 ≤ c.toNat ∧ c.toNat ≤ 57) ∨ (65 ≤ c.toNat ∧ c.toNat ≤ 90) ∨
    (97 ≤ c.toNat ∧ c.toNat ≤ 122) ∨ c.toNat = 95)

/-- Membership in Python's `string.punctuation`, i.e.
`!"#$%&'()*+,-./:;<=>?@[\]^_`{|}~` : exactly the printable ASCII
characters (33–126) that are not alphanumeric. -/
def isPunct (c : Char) : Bool :=
  decide ((33 ≤ c.toNat ∧ c.toNat ≤ 126) ∧ ¬(48 ≤ c.toNat ∧ c.toNat ≤ 57) ∧
    ¬(65 ≤ c.toNat ∧ c.toNat ≤ 90) ∧ ¬(97 ≤ c.toNat ∧ c.toNat ≤ 122))

/-- Python `str.lower` on one character (ASCII semantics):
map `A`–`Z` to `a`–`z`, leave everything else unchanged. -/
def pyLowerChar (c : Char) : Char :=
  if 65 ≤ c.toNat ∧ c.toNat ≤ 90 then Char.ofNat (c.toNat + 32) else c

/-! ## `clean_text` (plagiarism_detector.py, lines 6–10)

```python
def clean_text(text):
    text = text.lower()
    text = re.sub(r'\d+', '', text)
    text = text.translate(str.maketrans('', '', string.punctuation))
    return text
```
Removing every maximal digit run (`\d+` replaced by the empty string) is the
same as removing every digit character, so the second step is a filter. -/
def cleanChars (l : List Char) : List Char :=
  ((l.map pyLowerChar).filter
      (fun c => !isAsciiDigit c)).filter (fun c => !isPunct c)

def clean_text (s : String) : String := String.mk (cleanChars s.data)

/-! ## `PlagiarismChecker.normalize_text` (plagiarism_checker.py, lines 18–28)

```python
text = text.lower()
text = re.sub(r'\s+', ' ', text)       # collapse whitespace runs
text = re.sub(r'[^\w\s]', ' ', text)   # punctuation -> space
text = text.strip()
```
Note the order: whitespace runs are collapsed *before* punctuation is turned
into spaces, so the replacement can reintroduce multi-space runs. -/

/-- `re.sub(r'\s+', ' ', ·)`: each maximal whitespace run becomes one space.
The boolean flag records whether the previous character was whitespace
(i.e. whether we are inside a run whose space was already emitted). -/
def collapseWsGo : Bool → List Char → List Char
  | _, [] => []
  | prevWs, c :: cs =>
      if isPySpace c then
        (if prevWs then [] else [' ']) ++ collapseWsGo true cs
      else
        c :: collapseWsGo false cs

def collapseWs (l : List Char) : List Char := collapseWsGo false l

/-- `re.sub(r'[^\w\s]', ' ', ·)`: every character that is neither a word
character nor whitespace becomes a space. -/
def punctToSpace (l : List Char) : List Char :=
  l.map (fun c => if isWordChar c || isPySpace c then c else ' ')

/-- Python `str.strip()`: drop whitespace from both ends. -/
def pyStrip (l : List Char) : List Char :=
  ((l.dropWhile isPySpace).reverse.dropWhile isPySpace).reverse

def normalize_text (s : String) : String :=
  String.mk (pyStrip (punctToSpace (collapseWs (s.data.map pyLowerChar))))

/-- Python `str.split()` with no separator: split on whitespace runs,
discarding empty pieces.  The accumulator holds the current word reversed. -/
def pySplitGo : List Char → List Char → List (List Char)
  | acc, [] => if acc = [] then [] else [acc.reverse]
  | acc, c :: cs =>
      if isPySpace c then
        (if acc = [] then [] else [acc.reverse]) ++ pySplitGo [] cs
      else
        pySplitGo (c :: acc) cs

def pySplit (s : String) : List String :=
  (pySplitGo [] s.data).map String.mk


/-! ## `difflib.SequenceMatcher` (used by `calculate_similarity`)

`calculate_similarity` (plagiarism_checker.py, lines 41–46) returns
`SequenceMatcher(None, normalized_text1, normalized_text2).ratio()`.

`ratio` is `2 * M / (len(a) + len(b))` (and `1.0` when both are empty),
where `M` is the total size of the matching blocks found by difflib's
greedy recursion: find the longest matching block — ties broken towards
the smallest index in `a`, then in `b` — and recurse on the parts to its
left and to its right.

`find_longest_match` is a row-by-row dynamic program: at row `i`,
`j2len[j]` is the length of the longest match ending at `a[i]`, `b[j]`
(`j2len[j] = prev[j-1] + 1` when `a[i] == b[j]`, else `0`), and the best
block is updated whenever a strictly longer match appears.

The popularity ("autojunk") heuristic — which only alters the result when
the second string has at least 200 characters — is not modeled; every
concrete input appearing below is far below that threshold, where the
model agrees with difflib exactly. -/

/-- One DP row.  `q` is the previous row shifted by one (`q[j] = prev[j-1]`),
so the caller passes `0 :: prev`.  Entry `j` of the result is
`q[j] + 1` if `b[j]` equals `ai`, else `0`. -/
def dpRowGo (ai : Char) : List Char → List ℕ → List ℕ
  | [], _ => []
  | c :: bs, q => (if c = ai then q.headD 0 + 1 else 0) :: dpRowGo ai bs q.tail

def dpRow (ai : Char) (b : List Char) (prev : List ℕ) : List ℕ :=
  dpRowGo ai b (0 :: prev)

/-- Scan one DP row (row index `i`), starting at column `j`, updating the
best `(besti, bestj, bestk)` whenever an entry is strictly larger than the
current `bestk`.  A new best of size `k` ending at `(i, j)` starts at
`(i + 1 - k, j + 1 - k)` (difflib writes `i - k + 1`; the two agree since a
match ending at row `i` has size at most `i + 1`). -/
def bestInRow (i : ℕ) : List ℕ → ℕ → ℕ × ℕ × ℕ → ℕ × ℕ × ℕ
  | [], _, best => best
  | k :: ks, j, best =>
      bestInRow i ks (j + 1)
        (if k > best.2.2 then (i + 1 - k, j + 1 - k, k) else best)

/-- Process the remaining rows `as'` of `a` (current row index `i`),
threading the previous DP row and the best block found so far. -/
def flmAux (b : List Char) : List Char → List ℕ → ℕ → ℕ × ℕ × ℕ → ℕ × ℕ × ℕ
  | [], _, _, best => best
  | ai :: as', prev, i, best =>
      let row := dpRow ai b prev
      flmAux b as' row (i + 1) (bestInRow i row 0 best)

/-- `SequenceMatcher.find_longest_match` over the full ranges, without junk:
returns `(besti, bestj, bestk)`, initialized to `(0, 0, 0)`. -/
def findLongestMatch (a b : List Char) : ℕ × ℕ × ℕ :=
  flmAux b a (List.replicate b.length 0) 0 (0, 0, 0)

/-- Total size of difflib's matching blocks:
recurse left and right of the longest match.  The fuel argument is the
termination measure; `a.length` fuel always suffices because each
recursive call strictly shortens the first string. -/
def mtGo : ℕ → List Char → List Char → ℕ
  | 0, _, _ => 0
  | fuel + 1, a, b =>
      let t := findLongestMatch a b
      if t.2.2 = 0 then 0
      else
        mtGo fuel (a.take t.1) (b.take t.2.1) + t.2.2 +
          mtGo fuel (a.drop (t.1 + t.2.2)) (b.drop (t.2.1 + t.2.2))

def matchingTotal (a b : List Char) : ℕ := mtGo a.length a b

/-- `SequenceMatcher.ratio()`: `2 M / (la + lb)`, and `1.0` for two empty
sequences (difflib's `_calculate_ratio`). -/
def smRatio (a b : List Char) : ℚ :=
  if a.length + b.length = 0 then 1
  else 2 * (matchingTotal a b : ℚ) / (a.length + b.length)

/-- `PlagiarismChecker.calculate_similarity` (lines 41–46). -/
def calculate_similarity (t1 t2 : String) : ℚ :=
  smRatio (normalize_text t1).data (normalize_text t2).data


/-! ## Phrase extraction and overlap (plagiarism_checker.py, lines 30–59) -/

/-- `PlagiarismChecker.extract_phrases`: all contiguous `phrase_length`-word
windows, joined by single spaces.  Python's
`range(len(words) - phrase_length + 1)` is empty when the subtraction is
negative, which in `ℕ` is `words.length + 1 - phrase_length`. -/
def extract_phrases (text : String) (phrase_length : ℕ) : List String :=
  let words := pySplit text
  (List.range (words.length + 1 - phrase_length)).map
    (fun i => " ".intercalate ((words.drop i).take phrase_length))

/-- `PlagiarismChecker.check_phrase_overlap` (lines 48–59): deduplicate both
phrase lists into sets, return 0.0 when either is empty, else
`|intersection| / min(|set1|, |set2|)`. -/
def check_phrase_overlap (t1 t2 : String) (phrase_length : ℕ) : ℚ :=
  let p1 := (extract_phrases (normalize_text t1) phrase_length).toFinset
  let p2 := (extract_phrases (normalize_text t2) phrase_length).toFinset
  if p1 = ∅ ∨ p2 = ∅ then 0
  else ((p1 ∩ p2).card : ℚ) / min (p1.card : ℚ) (p2.card : ℚ)

/-! ## `check_common_phrases` (lines 115–138) -/

/-- Does `p` occur at the start of `l`? -/
def startsWithSeq : List Char → List Char → Bool
  | [], _ => true
  | _ :: _, [] => false
  | p :: ps, c :: cs => p = c && startsWithSeq ps cs

/-- Python's substring test `p in l`: does `p` occur contiguously in `l`? -/
def containsSeq (p : List Char) : List Char → Bool
  | [] => startsWithSeq p []
  | c :: cs => startsWithSeq p (c :: cs) || containsSeq p cs

/-- The fixed list of boilerplate academic phrases. -/
def common_phrases : List String :=
  ["in this paper we",
   "the purpose of this study",
   "our research shows",
   "the results indicate",
   "in conclusion",
   "this study aims to",
   "the main objective",
   "our findings suggest",
   "previous research has shown",
   "it is important to note"]

/-- Count how many of the fixed phrases occur as substrings of the
normalized text; return `count / len(common_phrases)`. -/
def check_common_phrases (t : String) : ℚ :=
  let normalized := (normalize_text t).data
  ((common_phrases.filter (fun p => containsSeq p.data normalized)).length : ℚ) /
    (common_phrases.length : ℚ)

/-! ## `check_against_database` and `generate_report` (lines 61–176)

The SQL fetch of same-event submissions is external data access; the
comparison corpus is therefore an explicit argument: one entry per row of
`abstract_submissions`, with its `id`, `title` and `abstract_text`. -/

structure Submission where
  id : ℕ
  title : String
  abstract_text : String
deriving DecidableEq, Repr

structure DbCheck where
  similarity_score : ℚ
  text_similarity : ℚ
  phrase_overlap : ℚ
  similar_submission : Option Submission
  is_suspicious : Bool
deriving Repr

/-- The loop of `check_against_database`: thread
`(max_similarity, max_phrase_overlap, similar_submission)` through the
corpus, updating on strict improvement only. -/
def dbScan (text : String) :
    List Submission → ℚ × ℚ × Option Submission → ℚ × ℚ × Option Submission
  | [], st => st
  | sub :: rest, (ms, mp, sim) =>
      let title_similarity := calculate_similarity text sub.title
      let abstract_similarity := calculate_similarity text sub.abstract_text
      let phrase_overlap := check_phrase_overlap text sub.abstract_text 5
      let current_similarity := max title_similarity abstract_similarity
      let ms' := if current_similarity > ms then current_similarity else ms
      let sim' := if current_similarity > ms then some sub else sim
      let mp' := if phrase_overlap > mp then phrase_overlap else mp
      dbScan text rest (ms', mp', sim')

/-- `check_against_database` (lines 61–113): the maxima start at `0.0` with
no similar submission; `combined_score = 0.7 * max_similarity +
0.3 * max_phrase_overlap`; suspicious when above the 0.7 threshold. -/
def check_against_database (text : String) (subs : List Submission) : DbCheck :=
  let st := dbScan text subs (0, 0, none)
  let combined_score := st.1 * (7/10) + st.2.1 * (3/10)
  { similarity_score := combined_score
    text_similarity := st.1
    phrase_overlap := st.2.1
    similar_submission := st.2.2
    is_suspicious := combined_score > 7/10 }

structure Report where
  overall_score : ℚ
  risk_level : String
  database_similarity : ℚ
  text_similarity : ℚ
  phrase_overlap : ℚ
  common_phrases_ratio : ℚ
  similar_submission : Option Submission
  is_suspicious : Bool
  recommendations : List String
deriving Repr

/-- `PlagiarismChecker._generate_recommendations` (lines 178–196). -/
def generate_recommendations (overall_risk : ℚ) (db_check : DbCheck) :
    List String :=
  (if overall_risk > 8/10 then
    ["URGENT: Manual review required - high similarity detected",
     "Consider rejecting or requesting major revision"]
   else if overall_risk > 5/10 then
    ["Manual review recommended - moderate similarity detected",
     "Request clarification or minor revision"]
   else if overall_risk > 3/10 then
    ["Low risk detected - brief review suggested"]
   else
    ["Minimal plagiarism risk - safe to approve"]) ++
  (match db_check.similar_submission with
   | some sub => ["Similar content found in submission ID: " ++ toString sub.id]
   | none => [])

/-- `PlagiarismChecker.generate_report` (lines 140–176).  The risk factors
are `similarity_score * 0.6`, `common_phrases_ratio * 0.2`, and a
short-text penalty `(len(text.split()) < 50) * 0.2`. -/
def generate_report (text : String) (subs : List Submission) : Report :=
  let db_check := check_against_database text subs
  let common_phrases_ratio := check_common_phrases text
  let overall_risk :=
    db_check.similarity_score * (6/10) + common_phrases_ratio * (2/10) +
      (if (pySplit text).length < 50 then (1 : ℚ) else 0) * (2/10)
  { overall_score := overall_risk
    risk_level :=
      if overall_risk > 8/10 then "HIGH"
      else if overall_risk > 5/10 then "MEDIUM"
      else if overall_risk > 3/10 then "LOW"
      else "MINIMAL"
    database_similarity := db_check.similarity_score
    text_similarity := db_check.text_similarity
    phrase_overlap := db_check.phrase_overlap
    common_phrases_ratio := common_phrases_ratio
    similar_submission := db_check.similar_submission
    is_suspicious := overall_risk > 5/10
    recommendations := generate_recommendations overall_risk db_check }


/-! ## Vector similarity: `check_plagiarism` (plagiarism_detector.py, 12–35)

`TfidfVectorizer().fit_transform` with default settings tokenizes each
cleaned document into maximal word-character runs of length at least two
(token pattern `\b\w\w+\b`), builds the vocabulary over all documents —
raising `ValueError("empty vocabulary ...")` when no document contributes
any token — and weights term counts by the smoothed inverse document
frequency `ln((1 + n) / (1 + df)) + 1`, L2-normalizing each row.
`cosine_similarity` then renormalizes (a mathematical no-op) and takes dot
products, so each score equals `⟨u, v⟩ / (‖u‖ ‖v‖)` on the unnormalized
TF-IDF rows, with zero vectors giving score 0 — which matches Lean's
division-by-zero convention.  Floating point is idealized by exact reals;
the vocabulary order (sklearn sorts it) is irrelevant to the scores and is
kept as first-occurrence order here. -/

/-- Tokenizer run collector, like `pySplitGo` but keeping word-character
runs. -/
def wordRunsGo : List Char → List Char → List (List Char)
  | acc, [] => if acc = [] then [] else [acc.reverse]
  | acc, c :: cs =>
      if isWordChar c then wordRunsGo (c :: acc) cs
      else (if acc = [] then [] else [acc.reverse]) ++ wordRunsGo [] cs

/-- sklearn's default tokenization: maximal word-character runs of length
at least 2. -/
def tokenize (l : List Char) : List (List Char) :=
  (wordRunsGo [] l).filter (fun w => 2 ≤ w.length)

/-- Token lists of the corpus `[user_text] + source_documents`, each
document first passed through `clean_text`. -/
def docTokens (user_text : String) (source_documents : List String) :
    List (List (List Char)) :=
  (user_text :: source_documents).map (fun d => tokenize (clean_text d).data)

/-- The fitted vocabulary: every token occurring in some document. -/
def vocabList (user_text : String) (source_documents : List String) :
    List (List Char) :=
  (docTokens user_text source_documents).flatten.dedup

/-- Document frequency of term `t`. -/
def dfCount (dt : List (List (List Char))) (t : List Char) : ℕ :=
  (dt.filter (fun doc => t ∈ doc)).length

/-- Smoothed inverse document frequency (sklearn `smooth_idf=True`):
`ln((1 + n) / (1 + df)) + 1`. -/
noncomputable def idfWeight (n df : ℕ) : ℝ :=
  Real.log ((1 + n) / (1 + df)) + 1

/-- Unnormalized TF-IDF row of one document over the given vocabulary. -/
noncomputable def tfidfRow (dt : List (List (List Char)))
    (vocab : List (List Char)) (tok : List (List Char)) : List ℝ :=
  vocab.map (fun t => (List.count t tok : ℝ) * idfWeight dt.length (dfCount dt t))

/-- Dot product of two weight rows (truncating to the shorter, though all
rows share the vocabulary length). -/
def dotR (u v : List ℝ) : ℝ := (List.zipWith (fun x y => x * y) u v).sum

/-- Cosine similarity, with sklearn's zero-vector convention (score 0),
which coincides with Lean's division-by-zero convention. -/
noncomputable def cosSim (u v : List ℝ) : ℝ :=
  dotR u v / (Real.sqrt (dotR u u) * Real.sqrt (dotR v v))

/-- The cosine scores of the user text against each source document, in
input order (`cosine_similarity(user_vector, tfidf_matrix[1:])`). -/
noncomputable def tfidfScores (user_text : String)
    (source_documents : List String) : List ℝ :=
  let dt := docTokens user_text source_documents
  let vocab := vocabList user_text source_documents
  dt.tail.map (fun tok =>
    cosSim (tfidfRow dt vocab (dt.headD [])) (tfidfRow dt vocab tok))

/-- The f-string `f"{score * 100:.2f}%"`: the score as a percentage with
exactly two decimal places.  `m` is the percentage in hundredths, rounded
to the nearest integer (scores are nonnegative, so `Int.toNat` is lossless). -/
noncomputable def fmtPct (score : ℝ) : String :=
  let m : ℕ := (round (score * 100 * 100) : ℤ).toNat
  toString (m / 100) ++ "." ++
    String.mk [Nat.digitChar (m / 10 % 10), Nat.digitChar (m % 10)] ++ "%"

/-- `check_plagiarism` (plagiarism_detector.py, lines 12–35).
`if not user_text: return []` catches the empty string;
`if len(cleaned_documents) < 2: return []` catches the empty source list
(the corpus is `[user_text] + source_documents`); the vectorizer fit
raises `ValueError` on an empty vocabulary; otherwise each source is
paired, in order, with its formatted percentage score. -/
noncomputable def check_plagiarism (user_text : String)
    (source_documents : List String) :
    Except String (List (String × String)) :=
  if user_text = "" then .ok []
  else if source_documents = [] then .ok []
  else if vocabList user_text source_documents = [] then
    .error "empty vocabulary; perhaps the documents only contain stop words"
  else
    .ok ((source_documents.zip (tfidfScores user_text source_documents)).map
      (fun p => (p.1, fmtPct p.2)))


/-! # Verified properties

## Character-level lemmas -/

theorem charToNat_ofNat {n : ℕ} (h : n < 55296) : (Char.ofNat n).toNat = n := by
  simp [Char.ofNat, Char.ofNatAux, Nat.isValidChar, h, Char.toNat, UInt32.toNat,
    BitVec.toNat_ofNatLt]

theorem pyLowerChar_toNat (c : Char) :
    (pyLowerChar c).toNat =
      if 65 ≤ c.toNat ∧ c.toNat ≤ 90 then c.toNat + 32 else c.toNat := by
  unfold pyLowerChar
  by_cases h : 65 ≤ c.toNat ∧ c.toNat ≤ 90
  · rw [if_pos h, if_pos h]
    exact charToNat_ofNat (by omega)
  · rw [if_neg h, if_neg h]

theorem pyLowerChar_not_upper (c : Char) : isAsciiUpper (pyLowerChar c) = false := by
  have h := pyLowerChar_toNat c
  unfold isAsciiUpper
  split at h <;> rw [h] <;> exact decide_eq_false (by omega)

theorem pyLowerChar_eq_self_of_not_upper {c : Char} (h : isAsciiUpper c = false) :
    pyLowerChar c = c := by
  unfold pyLowerChar
  exact if_neg (of_decide_eq_false h)

theorem pyLowerChar_idem (c : Char) :
    pyLowerChar (pyLowerChar c) = pyLowerChar c :=
  pyLowerChar_eq_self_of_not_upper (pyLowerChar_not_upper c)

/-! ## Idempotence of `clean_text` and properties of its output -/

theorem map_eq_self_of_fixed {α : Type} (l : List α) (f : α → α)
    (h : ∀ a ∈ l, f a = a) : l.map f = l := by
  induction l with
  | nil => rfl
  | cons a t ih =>
      simp only [List.map_cons, List.cons.injEq]
      exact ⟨h a (List.mem_cons_self a t),
        ih fun x hx => h x (List.mem_cons_of_mem a hx)⟩

theorem cleanChars_idem (l : List Char) : cleanChars (cleanChars l) = cleanChars l := by
  have hmem : ∀ a ∈ cleanChars l, pyLowerChar a = a := by
    intro a ha
    have : a ∈ l.map pyLowerChar :=
      List.mem_of_mem_filter (List.mem_of_mem_filter ha)
    rcases List.mem_map.mp this with ⟨b, _, rfl⟩
    exact pyLowerChar_idem b
  have hdigit : ∀ a ∈ cleanChars l, (!isAsciiDigit a) = true := by
    intro a ha
    unfold cleanChars at ha
    exact (List.mem_filter.mp (List.mem_of_mem_filter ha)).2
  have hpunct : ∀ a ∈ cleanChars l, (!isPunct a) = true := by
    intro a ha
    unfold cleanChars at ha
    exact (List.mem_filter.mp ha).2
  calc cleanChars (cleanChars l)
      = (((cleanChars l).map pyLowerChar).filter
          (fun c => !isAsciiDigit c)).filter (fun c => !isPunct c) := rfl
    _ = ((cleanChars l).filter
          (fun c => !isAsciiDigit c)).filter (fun c => !isPunct c) := by
          rw [map_eq_self_of_fixed _ _ hmem]
    _ = (cleanChars l).filter (fun c => !isPunct c) := by
          rw [List.filter_eq_self.mpr hdigit]
    _ = cleanChars l := List.filter_eq_self.mpr hpunct

/-! ## Properties of `normalize_text`'s output -/

theorem mem_collapseWsGo (l : List Char) :
    ∀ (flag : Bool), ∀ c ∈ collapseWsGo flag l, c = ' ' ∨ c ∈ l := by
  induction l with
  | nil => intro flag c hc; cases hc
  | cons a t ih =>
      intro flag c hc
      unfold collapseWsGo at hc
      by_cases ha : isPySpace a
      · rw [if_pos ha] at hc
        rcases List.mem_append.mp hc with h1 | h2
        · left
          cases flag with
          | false => simpa using h1
          | true => simp at h1
        · rcases ih true c h2 with h | h
          · exact Or.inl h
          · exact Or.inr (List.mem_cons_of_mem a h)
      · rw [if_neg ha] at hc
        rcases List.mem_cons.mp hc with h | h
        · exact Or.inr (h ▸ List.mem_cons_self a t)
        · rcases ih false c h with h' | h'
          · exact Or.inl h'
          · exact Or.inr (List.mem_cons_of_mem a h')

theorem mem_punctToSpace (l : List Char) :
    ∀ c ∈ punctToSpace l, c = ' ' ∨ c ∈ l := by
  intro c hc
  rcases List.mem_map.mp hc with ⟨b, hb, rfl⟩
  by_cases h : (isWordChar b || isPySpace b) = true
  · rw [if_pos h]; exact Or.inr hb
  · rw [if_neg h]; exact Or.inl rfl

theorem mem_pyStrip (l : List Char) : ∀ c ∈ pyStrip l, c ∈ l := by
  intro c hc
  unfold pyStrip at hc
  have h1 := List.mem_reverse.mp hc
  have h2 := (List.dropWhile_suffix isPySpace).subset h1
  have h3 := List.mem_reverse.mp h2
  exact (List.dropWhile_suffix isPySpace).subset h3

theorem normalize_chars {s : String} :
    ∀ c ∈ (normalize_text s).data, isAsciiUpper c = false := by
  intro c hc
  have h1 : c ∈ punctToSpace (collapseWs (s.data.map pyLowerChar)) :=
    mem_pyStrip _ c hc
  have hsp : isAsciiUpper ' ' = false := by decide
  rcases mem_punctToSpace _ c h1 with h | h2
  · rw [h]; exact hsp
  · rcases mem_collapseWsGo _ false c h2 with h | h3
    · rw [h]; exact hsp
    · rcases List.mem_map.mp h3 with ⟨b, _, rfl⟩
      exact pyLowerChar_not_upper b

theorem head?_dropWhile_not {p : Char → Bool} :
    ∀ (l : List Char) (c : Char), (l.dropWhile p).head? = some c → p c = false := by
  intro l
  induction l with
  | nil => intro c hc; cases hc
  | cons a t ih =>
      intro c hc
      rw [List.dropWhile_cons] at hc
      by_cases ha : p a = true
      · rw [if_pos ha] at hc; exact ih c hc
      · rw [if_neg ha] at hc
        cases hc
        exact Bool.eq_false_iff.mpr ha

theorem pyStrip_head {l : List Char} {c : Char}
    (h : (pyStrip l).head? = some c) : isPySpace c = false := by
  unfold pyStrip at h
  rw [List.head?_reverse] at h
  rcases (List.dropWhile_suffix isPySpace
      (l := (l.dropWhile isPySpace).reverse)) with ⟨w, hw⟩
  have : ((l.dropWhile isPySpace).reverse).getLast? = some c := by
    rw [← hw, List.getLast?_append, h]
    rfl
  rw [List.getLast?_reverse] at this
  exact head?_dropWhile_not l c this

theorem pyStrip_getLast {l : List Char} {c : Char}
    (h : (pyStrip l).getLast? = some c) : isPySpace c = false := by
  unfold pyStrip at h
  rw [List.getLast?_reverse] at h
  exact head?_dropWhile_not _ c h

/-! ## Claim C3: idempotence of normalization -/

/-- C3 counterexample: `normalize_text` is not idempotent.  On `"a . b"`
the first pass yields `"a   b"` (the punctuation replacement runs after
whitespace collapsing and creates a three-space run), and a second pass
collapses it to `"a b"`. -/
theorem C3_counterexample :
    normalize_text (normalize_text "a . b") ≠ normalize_text "a . b" := by decide

/-- C3 (amended): the vector path's normalizer `clean_text` is idempotent
for every string; the phrase/sequence path's `normalize_text` is not
(see `C3_counterexample`). -/
theorem C3_clean_text_idempotent (s : String) :
    clean_text (clean_text s) = clean_text s :=
  congrArg String.mk (cleanChars_idem s.data)

/-! ## Claim C4: shape of the normalizers' outputs -/

/-- C4 counterexample: `normalize_text` keeps digit characters, and
`clean_text` does not touch whitespace at all (leading whitespace and
multi-space runs survive), so no single normalizer has all the claimed
properties. -/
theorem C4_counterexample :
    normalize_text "a1" = "a1" ∧ isAsciiDigit '1' = true ∧
    clean_text " a  b" = " a  b" ∧ isPySpace ' ' = true := by decide

/-- C4 (amended): `clean_text` lowercases and removes every digit and
punctuation character (whitespace is preserved as-is), and maps `""` to
`""`; `normalize_text` lowercases, trims leading/trailing whitespace, and
maps `""` to `""` (digits are kept and inner whitespace runs can remain). -/
theorem C4_normalizer_properties :
    (∀ s, ((clean_text s).data.all
        (fun c => !isAsciiUpper c && !isAsciiDigit c && !isPunct c)) = true) ∧
    clean_text "" = "" ∧
    (∀ s, ((normalize_text s).data.all (fun c => !isAsciiUpper c)) = true) ∧
    (∀ s, ((normalize_text s).data.head?.all (fun c => !isPySpace c)) = true) ∧
    (∀ s, ((normalize_text s).data.getLast?.all (fun c => !isPySpace c)) = true) ∧
    normalize_text "" = "" := by
  refine ⟨?_, by decide, ?_, ?_, ?_, by decide⟩
  · intro s
    rw [List.all_eq_true]
    intro c hc
    have hup : isAsciiUpper c = false := by
      have : c ∈ s.data.map pyLowerChar :=
        List.mem_of_mem_filter (List.mem_of_mem_filter hc)
      rcases List.mem_map.mp this with ⟨b, _, rfl⟩
      exact pyLowerChar_not_upper b
    have hdig : (!isAsciiDigit c) = true := by
      have hc' : c ∈ (s.data.map pyLowerChar).filter (fun x => !isAsciiDigit x) :=
        List.mem_of_mem_filter hc
      exact (List.mem_filter.mp hc').2
    have hpun : (!isPunct c) = true := (List.mem_filter.mp hc).2
    simp [hup, Bool.not_eq_true' .. |>.mp hdig, Bool.not_eq_true' .. |>.mp hpun]
  · intro s
    rw [List.all_eq_true]
    intro c hc
    rw [Bool.not_eq_true', normalize_chars c hc]
  · intro s
    cases h : (normalize_text s).data.head? with
    | none => rfl
    | some c =>
        show (!isPySpace c) = true
        rw [pyStrip_head (by exact h)]
        rfl
  · intro s
    cases h : (normalize_text s).data.getLast? with
    | none => rfl
    | some c =>
        show (!isPySpace c) = true
        rw [pyStrip_getLast (by exact h)]
        rfl

/-! ## Claim C5: (a)symmetry of sequence similarity -/

theorem calcSim_aba_babba : calculate_similarity "aba" "babba" = 3/4 := by
  unfold calculate_similarity smRatio
  rw [show matchingTotal (normalize_text "aba").data (normalize_text "babba").data = 3
        by decide,
      show (normalize_text "aba").data.length = 3 from rfl,
      show (normalize_text "babba").data.length = 5 from rfl]
  norm_num

theorem calcSim_babba_aba : calculate_similarity "babba" "aba" = 1/2 := by
  unfold calculate_similarity smRatio
  rw [show matchingTotal (normalize_text "babba").data (normalize_text "aba").data = 2
        by decide,
      show (normalize_text "babba").data.length = 5 from rfl,
      show (normalize_text "aba").data.length = 3 from rfl]
  norm_num

/-- C5 counterexample: `SequenceMatcher.ratio` is order-sensitive, so
`calculate_similarity` is not symmetric.  For `("aba", "babba")` the greedy
matcher finds blocks `"ab"` and `"a"` (total 3, ratio 3/4), but for
`("babba", "aba")` only `"ba"` (total 2, ratio 1/2). -/
theorem C5_counterexample :
    calculate_similarity "aba" "babba" ≠ calculate_similarity "babba" "aba" := by
  rw [calcSim_aba_babba, calcSim_babba_aba]
  norm_num

/-- C5 (amended): sequence similarity is order-sensitive — swapping the
arguments can change the ratio, e.g. 0.75 versus 0.5 on
`("aba", "babba")`. -/
theorem C5_asymmetry_values :
    calculate_similarity "aba" "babba" = 3/4 ∧
    calculate_similarity "babba" "aba" = 1/2 :=
  ⟨calcSim_aba_babba, calcSim_babba_aba⟩

/-! ## Claim C1: behavior of `check_plagiarism` on empty inputs -/

/-- C1 counterexample: a non-empty candidate with an empty source list does
not raise — there is no `EmptyCorpusError` anywhere in the source; the
`len(cleaned_documents) < 2` guard returns the empty list instead. -/
theorem C1_counterexample : check_plagiarism "x" [] = .ok [] := by
  unfold check_plagiarism
  rw [if_neg (by decide), if_pos rfl]

/-- C1 (amended): `check_plagiarism` returns the empty list (without
raising) both when the source list is empty and when the candidate is the
empty string. -/
theorem C1_empty_inputs :
    (∀ u, check_plagiarism u [] = .ok []) ∧
    (∀ s, check_plagiarism "" s = .ok []) := by
  constructor
  · intro u
    unfold check_plagiarism
    by_cases hu : u = ""
    · rw [if_pos hu]
    · rw [if_neg hu, if_pos rfl]
  · intro s
    unfold check_plagiarism
    rw [if_pos rfl]

/-! ## Claim C2: which comparison operations can fail -/

/-- C2 counterexample: a digits-only candidate against a digits-only source
— both non-empty, perfectly valid strings — reaches the vectorizer with an
empty vocabulary (cleaning removes every character), which raises
`ValueError` in sklearn. -/
theorem C2_counterexample :
    check_plagiarism "123" ["456"] =
      .error "empty vocabulary; perhaps the documents only contain stop words" := by
  unfold check_plagiarism
  rw [if_neg (by decide), if_neg (by decide), if_pos (by decide)]

/-- C2 (amended): the pure metrics (sequence similarity, phrase overlap,
common-phrase ratio) are total with the documented degenerate-input
policies, and `check_plagiarism` tolerates an empty candidate; but vector
similarity with a non-empty candidate and corpus can still fail, when no
document yields any token (e.g. digits-only strings). -/
theorem C2_failure_modes :
    (∀ t, check_phrase_overlap "" t 5 = 0) ∧
    (∀ t, check_phrase_overlap t "" 5 = 0) ∧
    calculate_similarity "" "x" = 0 ∧
    check_common_phrases "" = 0 ∧
    check_plagiarism "" ["x"] = .ok [] ∧
    (∃ e, check_plagiarism "123" ["456"] = .error e) := by
  have hempty : (extract_phrases (normalize_text "") 5).toFinset = ∅ := by decide
  have hsim : calculate_similarity "" "x" = 0 := by
    unfold calculate_similarity smRatio
    rw [show matchingTotal (normalize_text "").data (normalize_text "x").data = 0
          by decide,
        show (normalize_text "").data.length = 0 from rfl,
        show (normalize_text "x").data.length = 1 from rfl]
    norm_num
  have hcommon : check_common_phrases "" = 0 := by
    simp only [check_common_phrases]
    rw [show (common_phrases.filter
          (fun p => containsSeq p.data (normalize_text "").data)).length = 0 by decide]
    norm_num
  refine ⟨?_, ?_, hsim, hcommon, ?_, ?_⟩
  · intro t
    simp only [check_phrase_overlap]
    rw [if_pos (Or.inl hempty)]
  · intro t
    simp only [check_phrase_overlap]
    rw [if_pos (Or.inr hempty)]
  · unfold check_plagiarism
    rw [if_pos rfl]
  · exact ⟨_, C2_counterexample⟩

/-! ## Claim C6: the phrase-overlap score -/

theorem extract_phrases_of_short {t : String} {w : ℕ}
    (h : (pySplit t).length < w) : extract_phrases t w = [] := by
  simp only [extract_phrases]
  rw [show (pySplit t).length + 1 - w = 0 by omega]
  rfl

theorem extract_phrases_ne_nil {t : String} {w : ℕ}
    (h : w ≤ (pySplit t).length) : extract_phrases t w ≠ [] := by
  simp only [extract_phrases]
  intro hc
  have hlen := congrArg List.length hc
  simp only [List.length_map, List.length_range, List.length_nil] at hlen
  omega

/-- C6: with window size `w` (the code's default is 5), if either
normalized text has fewer than `w` words its deduplicated phrase set is
empty and `check_phrase_overlap` returns exactly 0; otherwise the result
is `|intersection| / min(|set1|, |set2|)` over the deduplicated `w`-word
window sets. -/
theorem C6_phrase_overlap_formula (t1 t2 : String) (w : ℕ) :
    ((pySplit (normalize_text t1)).length < w →
        (extract_phrases (normalize_text t1) w).toFinset = ∅ ∧
        check_phrase_overlap t1 t2 w = 0) ∧
    ((pySplit (normalize_text t2)).length < w →
        (extract_phrases (normalize_text t2) w).toFinset = ∅ ∧
        check_phrase_overlap t1 t2 w = 0) ∧
    (w ≤ (pySplit (normalize_text t1)).length →
      w ≤ (pySplit (normalize_text t2)).length →
        check_phrase_overlap t1 t2 w =
          (((extract_phrases (normalize_text t1) w).toFinset ∩
              (extract_phrases (normalize_text t2) w).toFinset).card : ℚ) /
            min ((extract_phrases (normalize_text t1) w).toFinset.card : ℚ)
              ((extract_phrases (normalize_text t2) w).toFinset.card : ℚ)) := by
  refine ⟨?_, ?_, ?_⟩
  · intro h
    have hset : (extract_phrases (normalize_text t1) w).toFinset = ∅ := by
      rw [extract_phrases_of_short h]
      rfl
    refine ⟨hset, ?_⟩
    simp only [check_phrase_overlap]
    rw [if_pos (Or.inl hset)]
  · intro h
    have hset : (extract_phrases (normalize_text t2) w).toFinset = ∅ := by
      rw [extract_phrases_of_short h]
      rfl
    refine ⟨hset, ?_⟩
    simp only [check_phrase_overlap]
    rw [if_pos (Or.inr hset)]
  · intro h1 h2
    have hne1 : (extract_phrases (normalize_text t1) w).toFinset ≠ ∅ := by
      rw [Ne, List.toFinset_eq_empty_iff]
      exact extract_phrases_ne_nil h1
    have hne2 : (extract_phrases (normalize_text t2) w).toFinset ≠ ∅ := by
      rw [Ne, List.toFinset_eq_empty_iff]
      exact extract_phrases_ne_nil h2
    simp only [check_phrase_overlap]
    rw [if_neg (by push_neg; exact ⟨hne1, hne2⟩)]

/-- Witness for C6: the short-text branch on `("a b", "c d e f g h")` and
the formula branch on two six-word texts sharing one 5-word window. -/
theorem C6_witness :
    ((pySplit (normalize_text "a b")).length < 5 ∧
      check_phrase_overlap "a b" "c d e f g h" 5 = 0) ∧
    (5 ≤ (pySplit (normalize_text "a b c d e f")).length ∧
      5 ≤ (pySplit (normalize_text "a b c d e g")).length ∧
      check_phrase_overlap "a b c d e f" "a b c d e g" 5 =
        (((extract_phrases (normalize_text "a b c d e f") 5).toFinset ∩
            (extract_phrases (normalize_text "a b c d e g") 5).toFinset).card : ℚ) /
          min ((extract_phrases (normalize_text "a b c d e f") 5).toFinset.card : ℚ)
            ((extract_phrases (normalize_text "a b c d e g") 5).toFinset.card : ℚ)) :=
  ⟨⟨by decide,
    ((C6_phrase_overlap_formula "a b" "c d e f g h" 5).1 (by decide)).2⟩,
   by decide, by decide,
    (C6_phrase_overlap_formula "a b c d e f" "a b c d e g" 5).2.2
      (by decide) (by decide)⟩

/-! ## Claims C7 and C8: the aggregated risk report -/

/-- Spec-side formulation: the maximum over the corpus of the larger of
title and abstract sequence similarity (0 for an empty corpus). -/
def maxTextSimilarity (text : String) (subs : List Submission) : ℚ :=
  subs.foldl
    (fun m sub => max m (max (calculate_similarity text sub.title)
      (calculate_similarity text sub.abstract_text))) 0

/-- Spec-side formulation: the maximum phrase overlap over the corpus
(0 for an empty corpus). -/
def maxPhraseOverlap (text : String) (subs : List Submission) : ℚ :=
  subs.foldl (fun m sub => max m (check_phrase_overlap text sub.abstract_text 5)) 0

/-- Spec-side formulation: 1 when the candidate has fewer than 50 words,
else 0. -/
def shortTextPenalty (text : String) : ℚ :=
  if (pySplit text).length < 50 then 1 else 0

theorem dbScan_fst (text : String) :
    ∀ (subs : List Submission) (ms mp : ℚ) (sim : Option Submission),
      (dbScan text subs (ms, mp, sim)).1 =
        subs.foldl
          (fun m sub => max m (max (calculate_similarity text sub.title)
            (calculate_similarity text sub.abstract_text))) ms := by
  intro subs
  induction subs with
  | nil => intro ms mp sim; rfl
  | cons sub rest ih =>
      intro ms mp sim
      simp only [dbScan, List.foldl_cons]
      rw [ih]
      congr 1
      rcases le_or_lt (max (calculate_similarity text sub.title)
          (calculate_similarity text sub.abstract_text)) ms with h | h
      · rw [if_neg (not_lt.mpr h), max_eq_left h]
      · rw [if_pos h, max_eq_right h.le]

theorem dbScan_overlap (text : String) :
    ∀ (subs : List Submission) (ms mp : ℚ) (sim : Option Submission),
      (dbScan text subs (ms, mp, sim)).2.1 =
        subs.foldl
          (fun m sub => max m (check_phrase_overlap text sub.abstract_text 5)) mp := by
  intro subs
  induction subs with
  | nil => intro ms mp sim; rfl
  | cons sub rest ih =>
      intro ms mp sim
      simp only [dbScan, List.foldl_cons]
      rw [ih]
      have hmax : (if check_phrase_overlap text sub.abstract_text 5 > mp then
            check_phrase_overlap text sub.abstract_text 5 else mp) =
          max mp (check_phrase_overlap text sub.abstract_text 5) := by
        rcases le_or_lt (check_phrase_overlap text sub.abstract_text 5) mp with h | h
        · rw [if_neg (not_lt.mpr h), max_eq_left h]
        · rw [if_pos h, max_eq_right h.le]
      rw [hmax]

/-- C7: the report's `overall_score` is
`0.6 * database_similarity + 0.2 * common_phrases_ratio +
0.2 * short_text_penalty`, where `database_similarity` is
`0.7 * (max over the corpus of the larger of title/abstract sequence
similarity) + 0.3 * (max phrase overlap)` and the penalty is 1 exactly
when the candidate has fewer than 50 words. -/
theorem C7_overall_score_formula (text : String) (subs : List Submission) :
    (generate_report text subs).overall_score =
      (6/10) * (generate_report text subs).database_similarity +
        (2/10) * check_common_phrases text + (2/10) * shortTextPenalty text ∧
    (generate_report text subs).database_similarity =
      (7/10) * maxTextSimilarity text subs +
        (3/10) * maxPhraseOverlap text subs := by
  have h1 : (generate_report text subs).overall_score =
      (check_against_database text subs).similarity_score * (6/10) +
        check_common_phrases text * (2/10) +
        (if (pySplit text).length < 50 then (1 : ℚ) else 0) * (2/10) := rfl
  have h2 : (generate_report text subs).database_similarity =
      (check_against_database text subs).similarity_score := rfl
  have h3 : (check_against_database text subs).similarity_score =
      (dbScan text subs (0, 0, none)).1 * (7/10) +
        (dbScan text subs (0, 0, none)).2.1 * (3/10) := rfl
  constructor
  · rw [h1, h2, shortTextPenalty]
    ring
  · rw [h2, h3, dbScan_fst, dbScan_overlap, maxTextSimilarity, maxPhraseOverlap]
    ring

/-- C8: the risk level is `HIGH` exactly above 0.8, `MEDIUM` exactly on
(0.5, 0.8], `LOW` exactly on (0.3, 0.5], `MINIMAL` exactly at or below
0.3 (all cutoffs strict greater-than), and `is_suspicious` holds exactly
above 0.5. -/
theorem C8_risk_levels (text : String) (subs : List Submission) :
    ((generate_report text subs).risk_level = "HIGH" ↔
      (generate_report text subs).overall_score > 8/10) ∧
    ((generate_report text subs).risk_level = "MEDIUM" ↔
      (5/10 < (generate_report text subs).overall_score ∧
        (generate_report text subs).overall_score ≤ 8/10)) ∧
    ((generate_report text subs).risk_level = "LOW" ↔
      (3/10 < (generate_report text subs).overall_score ∧
        (generate_report text subs).overall_score ≤ 5/10)) ∧
    ((generate_report text subs).risk_level = "MINIMAL" ↔
      (generate_report text subs).overall_score ≤ 3/10) ∧
    ((generate_report text subs).is_suspicious = true ↔
      (generate_report text subs).overall_score > 5/10) := by
  have hrl : (generate_report text subs).risk_level =
      (if (generate_report text subs).overall_score > 8/10 then "HIGH"
       else if (generate_report text subs).overall_score > 5/10 then "MEDIUM"
       else if (generate_report text subs).overall_score > 3/10 then "LOW"
       else "MINIMAL") := rfl
  have hsus : (generate_report text subs).is_suspicious =
      decide ((generate_report text subs).overall_score > 5/10) := rfl
  rw [hrl, hsus]
  generalize (generate_report text subs).overall_score = o
  by_cases h8 : o > 8/10
  · have h5 : o > 5/10 := by linarith
    rw [if_pos h8]
    refine ⟨by simp [h8], ?_, ?_, ?_, by simp [h5]⟩
    · constructor
      · intro h; exact absurd h (by decide)
      · intro h; linarith [h.2]
    · constructor
      · intro h; exact absurd h (by decide)
      · intro h; linarith [h.2]
    · constructor
      · intro h; exact absurd h (by decide)
      · intro h; linarith
  · rw [if_neg h8]
    by_cases h5 : o > 5/10
    · rw [if_pos h5]
      refine ⟨?_, by simp [h5, not_lt.mp h8], ?_, ?_, by simp [h5]⟩
      · constructor
        · intro h; exact absurd h (by decide)
        · intro h; exact absurd h h8
      · constructor
        · intro h; exact absurd h (by decide)
        · intro h; linarith [h.2]
      · constructor
        · intro h; exact absurd h (by decide)
        · intro h; linarith
    · rw [if_neg h5]
      by_cases h3 : o > 3/10
      · rw [if_pos h3]
        refine ⟨?_, ?_, by simp [h3, not_lt.mp h5], ?_, by simp [h5]⟩
        · constructor
          · intro h; exact absurd h (by decide)
          · intro h; exact absurd h h8
        · constructor
          · intro h; exact absurd h (by decide)
          · intro h; exact absurd h.1 h5
        · constructor
          · intro h; exact absurd h (by decide)
          · intro h; linarith
      · rw [if_neg h3]
        refine ⟨?_, ?_, ?_, by simp [not_lt.mp h3], by simp [h5]⟩
        · constructor
          · intro h; exact absurd h (by decide)
          · intro h; exact absurd h h8
        · constructor
          · intro h; exact absurd h (by decide)
          · intro h; exact absurd h.1 h5
        · constructor
          · intro h; exact absurd h (by decide)
          · intro h; exact absurd h.1 h3

/-! ## Claim C9, part 1: the sequence ratio lies in [0, 1]

The key combinatorial fact is that the total size of difflib's matching
blocks is at most the length of either string.  This follows from the
invariant that `find_longest_match` returns `(i, j, k)` with
`i + k ≤ |a|` and `j + k ≤ |b|`, maintained through the DP rows. -/

theorem headD_eq_getD (q : List ℕ) : q.headD 0 = q.getD 0 0 := by
  cases q <;> rfl

theorem tail_getD (q : List ℕ) (j : ℕ) : q.tail.getD j 0 = q.getD (j + 1) 0 := by
  cases q
  · rfl
  · exact (List.getD_cons_succ).symm

theorem dpRowGo_length (ai : Char) :
    ∀ (b : List Char) (q : List ℕ), (dpRowGo ai b q).length = b.length := by
  intro b
  induction b with
  | nil => intro q; rfl
  | cons c bs ih =>
      intro q
      simp only [dpRowGo, List.length_cons, ih]

theorem dpRowGo_getD_le (ai : Char) :
    ∀ (b : List Char) (q : List ℕ) (m : ℕ → ℕ),
      (∀ j, q.getD j 0 ≤ m j) → ∀ j, (dpRowGo ai b q).getD j 0 ≤ m j + 1 := by
  intro b
  induction b with
  | nil =>
      intro q m _ j
      simp [dpRowGo, List.getD]
  | cons c bs ih =>
      intro q m hq j
      cases j with
      | zero =>
          simp only [dpRowGo, List.getD_cons_zero]
          split
          · rw [headD_eq_getD]
            exact Nat.add_le_add_right (hq 0) 1
          · exact Nat.zero_le _
      | succ j =>
          simp only [dpRowGo, List.getD_cons_succ]
          exact ih q.tail (fun j => m (j + 1))
            (fun j => (tail_getD q j) ▸ hq (j + 1)) j

theorem bestInRow_ok (i la lb : ℕ) :
    ∀ (ks : List ℕ) (j : ℕ) (best : ℕ × ℕ × ℕ),
      (∀ idx, ks.getD idx 0 ≤ min (i + 1) (j + idx + 1)) →
      j + ks.length ≤ lb →
      i + 1 ≤ la →
      best.1 + best.2.2 ≤ la →
      best.2.1 + best.2.2 ≤ lb →
      (bestInRow i ks j best).1 + (bestInRow i ks j best).2.2 ≤ la ∧
        (bestInRow i ks j best).2.1 + (bestInRow i ks j best).2.2 ≤ lb := by
  intro ks
  induction ks with
  | nil =>
      intro j best _ _ _ h1 h2
      exact ⟨h1, h2⟩
  | cons k ks' ih =>
      intro j best hbound hlen hila h1 h2
      have hk : k ≤ min (i + 1) (j + 1) := by
        have := hbound 0
        rwa [List.getD_cons_zero] at this
      simp only [bestInRow]
      refine ih (j + 1) _ ?_ ?_ hila ?_ ?_
      · intro idx
        have := hbound (idx + 1)
        rw [List.getD_cons_succ] at this
        have harith : j + (idx + 1) + 1 = j + 1 + idx + 1 := by omega
        rwa [harith] at this
      · simp only [List.length_cons] at hlen
        omega
      · split
        · simp only []
          omega
        · exact h1
      · split
        · simp only []
          simp only [List.length_cons] at hlen
          omega
        · exact h2

theorem replicate_getD (n j : ℕ) : (List.replicate n (0 : ℕ)).getD j 0 = 0 := by
  induction n generalizing j with
  | zero => rfl
  | succ n ih =>
      cases j with
      | zero => rfl
      | succ j =>
          simp only [List.replicate, List.getD_cons_succ]
          exact ih j

theorem flmAux_ok (b : List Char) :
    ∀ (as' : List Char) (prev : List ℕ) (i : ℕ) (best : ℕ × ℕ × ℕ),
      prev.length = b.length →
      (∀ j, prev.getD j 0 ≤ min i (j + 1)) →
      best.1 + best.2.2 ≤ i + as'.length →
      best.2.1 + best.2.2 ≤ b.length →
      (flmAux b as' prev i best).1 + (flmAux b as' prev i best).2.2 ≤
          i + as'.length ∧
        (flmAux b as' prev i best).2.1 + (flmAux b as' prev i best).2.2 ≤
          b.length := by
  intro as'
  induction as' with
  | nil =>
      intro prev i best _ _ h1 h2
      exact ⟨h1, h2⟩
  | cons ai as'' ih =>
      intro prev i best hplen hprev h1 h2
      have hrowlen : (dpRow ai b prev).length = b.length := dpRowGo_length ai b _
      have hrow : ∀ j, (dpRow ai b prev).getD j 0 ≤ min (i + 1) (j + 1) := by
        intro j
        have hq : ∀ j, (0 :: prev).getD j 0 ≤ min i j := by
          intro j
          cases j with
          | zero => simp [List.getD_cons_zero]
          | succ j =>
              rw [List.getD_cons_succ]
              have := hprev j
              omega
        have hd := dpRowGo_getD_le ai b (0 :: prev) (fun j => min i j) hq j
        show (dpRowGo ai b (0 :: prev)).getD j 0 ≤ min (i + 1) (j + 1)
        omega
      have hbest := bestInRow_ok i (i + (ai :: as'').length) b.length
        (dpRow ai b prev) 0 best
        (fun idx => by simpa using hrow idx)
        (by rw [hrowlen]; omega)
        (by simp only [List.length_cons]; omega)
        (by simpa using h1) h2
      simp only [flmAux]
      have := ih (dpRow ai b prev) (i + 1) (bestInRow i (dpRow ai b prev) 0 best)
        hrowlen hrow
        (by have := hbest.1; simp only [List.length_cons] at *; omega)
        hbest.2
      simp only [List.length_cons] at this ⊢
      constructor
      · have := this.1
        omega
      · exact this.2

theorem findLongestMatch_ok (a b : List Char) :
    (findLongestMatch a b).1 + (findLongestMatch a b).2.2 ≤ a.length ∧
      (findLongestMatch a b).2.1 + (findLongestMatch a b).2.2 ≤ b.length := by
  have := flmAux_ok b a (List.replicate b.length 0) 0 (0, 0, 0)
    (List.length_replicate b.length 0)
    (fun j => by rw [replicate_getD]; exact Nat.zero_le _)
    (by simp) (by simp)
  simpa [findLongestMatch] using this

theorem mtGo_le (fuel : ℕ) :
    ∀ (a b : List Char), mtGo fuel a b ≤ min a.length b.length := by
  induction fuel with
  | zero =>
      intro a b
      simp [mtGo]
  | succ fuel ih =>
      intro a b
      simp only [mtGo]
      by_cases hk : (findLongestMatch a b).2.2 = 0
      · rw [if_pos hk]
        exact Nat.zero_le _
      · rw [if_neg hk]
        have hb := findLongestMatch_ok a b
        have h1 := ih (a.take (findLongestMatch a b).1)
          (b.take (findLongestMatch a b).2.1)
        have h2 := ih (a.drop ((findLongestMatch a b).1 + (findLongestMatch a b).2.2))
          (b.drop ((findLongestMatch a b).2.1 + (findLongestMatch a b).2.2))
        simp only [List.length_take, List.length_drop] at h1 h2
        omega

theorem matchingTotal_le (a b : List Char) :
    matchingTotal a b ≤ min a.length b.length :=
  mtGo_le a.length a b

theorem smRatio_nonneg (a b : List Char) : 0 ≤ smRatio a b := by
  unfold smRatio
  split
  · norm_num
  · positivity

theorem smRatio_le_one (a b : List Char) : smRatio a b ≤ 1 := by
  unfold smRatio
  split
  · norm_num
  · next h =>
      have hM : matchingTotal a b ≤ min a.length b.length := matchingTotal_le a b
      have h2M : 2 * matchingTotal a b ≤ a.length + b.length := by omega
      have hpos : (0 : ℚ) < (a.length : ℚ) + (b.length : ℚ) := by
        have hp : 0 < a.length + b.length := Nat.pos_of_ne_zero h
        exact_mod_cast hp
      rw [div_le_one hpos]
      calc (2 : ℚ) * (matchingTotal a b : ℚ)
          = ((2 * matchingTotal a b : ℕ) : ℚ) := by push_cast; ring
        _ ≤ ((a.length + b.length : ℕ) : ℚ) := by exact_mod_cast h2M
        _ = (a.length : ℚ) + (b.length : ℚ) := by push_cast; ring

/-! ## Claim C9, parts 2 and 3: phrase-overlap and common-phrase ratios -/

theorem check_phrase_overlap_nonneg (t1 t2 : String) (w : ℕ) :
    0 ≤ check_phrase_overlap t1 t2 w := by
  simp only [check_phrase_overlap]
  split
  · exact le_refl 0
  · exact div_nonneg (Nat.cast_nonneg _)
      (le_min (Nat.cast_nonneg _) (Nat.cast_nonneg _))

theorem check_phrase_overlap_le_one (t1 t2 : String) (w : ℕ) :
    check_phrase_overlap t1 t2 w ≤ 1 := by
  simp only [check_phrase_overlap]
  split
  · norm_num
  · next h =>
      push_neg at h
      obtain ⟨h1, h2⟩ := h
      have c1 : 0 < (extract_phrases (normalize_text t1) w).toFinset.card :=
        Finset.card_pos.mpr (Finset.nonempty_iff_ne_empty.mpr h1)
      have c2 : 0 < (extract_phrases (normalize_text t2) w).toFinset.card :=
        Finset.card_pos.mpr (Finset.nonempty_iff_ne_empty.mpr h2)
      have hle1 : ((extract_phrases (normalize_text t1) w).toFinset ∩
            (extract_phrases (normalize_text t2) w).toFinset).card ≤
          (extract_phrases (normalize_text t1) w).toFinset.card :=
        Finset.card_le_card Finset.inter_subset_left
      have hle2 : ((extract_phrases (normalize_text t1) w).toFinset ∩
            (extract_phrases (normalize_text t2) w).toFinset).card ≤
          (extract_phrases (normalize_text t2) w).toFinset.card :=
        Finset.card_le_card Finset.inter_subset_right
      rw [div_le_one (lt_min (by exact_mod_cast c1) (by exact_mod_cast c2))]
      exact le_min (by exact_mod_cast hle1) (by exact_mod_cast hle2)

theorem check_common_phrases_nonneg (t : String) : 0 ≤ check_common_phrases t := by
  simp only [check_common_phrases]
  positivity

theorem check_common_phrases_le_one (t : String) : check_common_phrases t ≤ 1 := by
  have hlen : (common_phrases.filter
      (fun p => containsSeq p.data (normalize_text t).data)).length ≤ 10 := by
    have h1 := List.length_filter_le
      (fun p => containsSeq p.data (normalize_text t).data) common_phrases
    have h2 : common_phrases.length = 10 := rfl
    omega
  simp only [check_common_phrases]
  rw [show common_phrases.length = 10 from rfl]
  rw [div_le_one (by norm_num)]
  exact_mod_cast hlen

/-! ## Claim C9, part 4: cosine similarity scores -/

theorem dotR_nonneg : ∀ (u v : List ℝ), (∀ x ∈ u, 0 ≤ x) → (∀ x ∈ v, 0 ≤ x) →
    0 ≤ dotR u v := by
  intro u
  induction u with
  | nil => intro v _ _; simp [dotR]
  | cons x u' ih =>
      intro v hu hv
      cases v with
      | nil => simp [dotR]
      | cons y v' =>
          have h1 : 0 ≤ x * y :=
            mul_nonneg (hu x (by simp)) (hv y (by simp))
          have h2 : 0 ≤ dotR u' v' :=
            ih v' (fun a ha => hu a (by simp [ha])) (fun a ha => hv a (by simp [ha]))
          simp only [dotR, List.zipWith_cons_cons, List.sum_cons]
          simp only [dotR] at h2
          linarith

theorem dotR_eq_sum : ∀ (u v : List ℝ),
    dotR u v = ∑ i ∈ Finset.range (min u.length v.length),
      u.getD i 0 * v.getD i 0 := by
  intro u
  induction u with
  | nil => intro v; simp [dotR]
  | cons x u' ih =>
      intro v
      cases v with
      | nil => simp [dotR]
      | cons y v' =>
          simp only [dotR, List.zipWith_cons_cons, List.sum_cons, List.length_cons]
          rw [show min (u'.length + 1) (v'.length + 1) = min u'.length v'.length + 1
                by omega,
              Finset.sum_range_succ']
          simp only [List.getD_cons_succ, List.getD_cons_zero]
          rw [← ih v']
          show x * y + dotR u' v' = dotR u' v' + x * y
          ring

theorem dotR_le_sqrt_mul (u v : List ℝ) (hu : ∀ x ∈ u, 0 ≤ x)
    (hv : ∀ x ∈ v, 0 ≤ x) :
    dotR u v ≤ Real.sqrt (dotR u u) * Real.sqrt (dotR v v) := by
  have hduv : 0 ≤ dotR u v := dotR_nonneg u v hu hv
  have hduu : 0 ≤ dotR u u := dotR_nonneg u u hu hu
  have hdvv : 0 ≤ dotR v v := dotR_nonneg v v hv hv
  have hcs : (∑ i ∈ Finset.range (min u.length v.length), u.getD i 0 * v.getD i 0) ^ 2 ≤
      (∑ i ∈ Finset.range (min u.length v.length), u.getD i 0 ^ 2) *
        ∑ i ∈ Finset.range (min u.length v.length), v.getD i 0 ^ 2 :=
    Finset.sum_mul_sq_le_sq_mul_sq _ _ _
  have huu : (∑ i ∈ Finset.range (min u.length v.length), u.getD i 0 ^ 2) ≤ dotR u u := by
    rw [dotR_eq_sum u u, min_self]
    have hsub : Finset.range (min u.length v.length) ⊆ Finset.range u.length :=
      Finset.range_subset.mpr (min_le_left _ _)
    calc (∑ i ∈ Finset.range (min u.length v.length), u.getD i 0 ^ 2)
        ≤ ∑ i ∈ Finset.range u.length, u.getD i 0 ^ 2 :=
          Finset.sum_le_sum_of_subset_of_nonneg hsub (fun i _ _ => sq_nonneg _)
      _ = ∑ i ∈ Finset.range u.length, u.getD i 0 * u.getD i 0 := by
          apply Finset.sum_congr rfl
          intro i _
          ring
  have hvv : (∑ i ∈ Finset.range (min u.length v.length), v.getD i 0 ^ 2) ≤ dotR v v := by
    rw [dotR_eq_sum v v, min_self]
    have hsub : Finset.range (min u.length v.length) ⊆ Finset.range v.length :=
      Finset.range_subset.mpr (min_le_right _ _)
    calc (∑ i ∈ Finset.range (min u.length v.length), v.getD i 0 ^ 2)
        ≤ ∑ i ∈ Finset.range v.length, v.getD i 0 ^ 2 :=
          Finset.sum_le_sum_of_subset_of_nonneg hsub (fun i _ _ => sq_nonneg _)
      _ = ∑ i ∈ Finset.range v.length, v.getD i 0 * v.getD i 0 := by
          apply Finset.sum_congr rfl
          intro i _
          ring
  have hsq : dotR u v ^ 2 ≤ dotR u u * dotR v v := by
    rw [dotR_eq_sum u v]
    calc (∑ i ∈ Finset.range (min u.length v.length), u.getD i 0 * v.getD i 0) ^ 2
        ≤ (∑ i ∈ Finset.range (min u.length v.length), u.getD i 0 ^ 2) *
            ∑ i ∈ Finset.range (min u.length v.length), v.getD i 0 ^ 2 := hcs
      _ ≤ dotR u u * dotR v v := by
          apply mul_le_mul huu hvv (Finset.sum_nonneg (fun i _ => sq_nonneg _)) hduu
  calc dotR u v = Real.sqrt (dotR u v ^ 2) := (Real.sqrt_sq hduv).symm
    _ ≤ Real.sqrt (dotR u u * dotR v v) := Real.sqrt_le_sqrt hsq
    _ = Real.sqrt (dotR u u) * Real.sqrt (dotR v v) := Real.sqrt_mul hduu _

theorem cosSim_bounds (u v : List ℝ) (hu : ∀ x ∈ u, 0 ≤ x)
    (hv : ∀ x ∈ v, 0 ≤ x) : 0 ≤ cosSim u v ∧ cosSim u v ≤ 1 := by
  have hd := dotR_nonneg u v hu hv
  have hD : 0 ≤ Real.sqrt (dotR u u) * Real.sqrt (dotR v v) :=
    mul_nonneg (Real.sqrt_nonneg _) (Real.sqrt_nonneg _)
  constructor
  · exact div_nonneg hd hD
  · rcases eq_or_lt_of_le hD with hD0 | hDpos
    · unfold cosSim
      rw [← hD0, div_zero]
      norm_num
    · unfold cosSim
      rw [div_le_one hDpos]
      exact dotR_le_sqrt_mul u v hu hv

theorem dfCount_le (dt : List (List (List Char))) (t : List Char) :
    dfCount dt t ≤ dt.length :=
  List.length_filter_le _ _

theorem idfWeight_nonneg {n df : ℕ} (h : df ≤ n) : 0 ≤ idfWeight n df := by
  unfold idfWeight
  have hcast : (df : ℝ) ≤ (n : ℝ) := Nat.cast_le.mpr h
  have hlog : 0 ≤ Real.log ((1 + n) / (1 + df)) := by
    apply Real.log_nonneg
    rw [le_div_iff₀ (by positivity)]
    linarith
  linarith

theorem tfidfRow_nonneg (dt : List (List (List Char))) (vocab : List (List Char))
    (tok : List (List Char)) : ∀ x ∈ tfidfRow dt vocab tok, 0 ≤ x := by
  intro x hx
  rcases List.mem_map.mp hx with ⟨t, _, rfl⟩
  exact mul_nonneg (Nat.cast_nonneg _) (idfWeight_nonneg (dfCount_le dt t))

theorem tfidfScores_mem_bounds (u : String) (s : List String) :
    ∀ x ∈ tfidfScores u s, 0 ≤ x ∧ x ≤ 1 := by
  intro x hx
  simp only [tfidfScores] at hx
  rcases List.mem_map.mp hx with ⟨tok, _, rfl⟩
  exact cosSim_bounds _ _ (tfidfRow_nonneg _ _ _) (tfidfRow_nonneg _ _ _)

/-- C9: every similarity score lies in [0, 1]: the sequence ratio, the
phrase-overlap ratio (any window size), the common-phrase ratio, and every
cosine similarity score in the vector path (entries beyond the list length
default to 0, also in range). -/
theorem C9_score_bounds :
    (∀ t1 t2, 0 ≤ calculate_similarity t1 t2 ∧ calculate_similarity t1 t2 ≤ 1) ∧
    (∀ t1 t2 w, 0 ≤ check_phrase_overlap t1 t2 w ∧
      check_phrase_overlap t1 t2 w ≤ 1) ∧
    (∀ t, 0 ≤ check_common_phrases t ∧ check_common_phrases t ≤ 1) ∧
    (∀ u s i, 0 ≤ (tfidfScores u s).getD i 0 ∧ (tfidfScores u s).getD i 0 ≤ 1) := by
  refine ⟨fun t1 t2 => ⟨smRatio_nonneg _ _, smRatio_le_one _ _⟩,
    fun t1 t2 w => ⟨check_phrase_overlap_nonneg t1 t2 w,
      check_phrase_overlap_le_one t1 t2 w⟩,
    fun t => ⟨check_common_phrases_nonneg t, check_common_phrases_le_one t⟩,
    fun u s i => ?_⟩
  rw [List.getD_eq_getElem?_getD]
  cases h : (tfidfScores u s)[i]? with
  | none => norm_num
  | some x =>
      have hb := tfidfScores_mem_bounds u s x (List.getElem?_mem h)
      simpa using hb

/-! ## Claim C10: shape of the peer-mode result entries -/

/-- The shape of a formatted percentage: an integer part, a decimal point,
exactly two decimal digits, and a percent sign. -/
def pctShape (str : String) : Prop :=
  ∃ intPart d1 d2, str = intPart ++ "." ++ String.mk [d1, d2] ++ "%" ∧
    isAsciiDigit d1 = true ∧ isAsciiDigit d2 = true

theorem digitChar_isDigit {k : ℕ} (h : k < 10) :
    isAsciiDigit (Nat.digitChar k) = true := by
  interval_cases k <;> decide

theorem fmtPct_shape (x : ℝ) : pctShape (fmtPct x) :=
  ⟨toString ((round (x * 100 * 100) : ℤ).toNat / 100), _, _, rfl,
    digitChar_isDigit (Nat.mod_lt _ (by norm_num)),
    digitChar_isDigit (Nat.mod_lt _ (by norm_num))⟩

theorem tfidfScores_length (u : String) (s : List String) :
    (tfidfScores u s).length = s.length := by
  simp only [tfidfScores, docTokens, List.map_cons, List.tail_cons, List.length_map]

theorem zipFmt_getD : ∀ (s : List String) (sc : List ℝ) (i : ℕ),
    i < s.length → sc.length = s.length →
    ((s.zip sc).map (fun p => (p.1, fmtPct p.2))).getD i ("", "") =
      (s.getD i "", fmtPct (sc.getD i 0)) := by
  intro s
  induction s with
  | nil =>
      intro sc i hi _
      exact absurd hi (by simp)
  | cons a s' ih =>
      intro sc i hi hlen
      cases sc with
      | nil => simp at hlen
      | cons x sc' =>
          cases i with
          | zero => rfl
          | succ i =>
              simp only [List.zip_cons_cons, List.map_cons, List.getD_cons_succ]
              refine ih sc' i ?_ ?_
              · simpa using hi
              · simpa using hlen

/-- C10: when every guard passes (non-empty candidate, non-empty sources,
non-empty vocabulary), `check_plagiarism` succeeds with one entry per
source; the `i`-th entry pairs the verbatim `i`-th source text with the
cosine score formatted as a percentage string with exactly two decimal
places — the entries hold no raw [0,1] score. -/
theorem C10_result_shape (u : String) (s : List String)
    (hu : u ≠ "") (hs : s ≠ []) (hv : vocabList u s ≠ []) :
    ∃ r, check_plagiarism u s = .ok r ∧ r.length = s.length ∧
      ∀ i, i < s.length →
        r.getD i ("", "") =
          (s.getD i "", fmtPct ((tfidfScores u s).getD i 0)) ∧
        pctShape (fmtPct ((tfidfScores u s).getD i 0)) := by
  refine ⟨(s.zip (tfidfScores u s)).map (fun p => (p.1, fmtPct p.2)), ?_, ?_, ?_⟩
  · unfold check_plagiarism
    rw [if_neg hu, if_neg hs, if_neg hv]
  · rw [List.length_map, List.length_zip, tfidfScores_length, min_self]
  · intro i hi
    exact ⟨zipFmt_getD s _ i hi (tfidfScores_length u s), fmtPct_shape _⟩

/-- Witness for C10 at a concrete input whose guards all pass. -/
theorem C10_witness :
    ("hello world" ≠ "" ∧ (["hello there"] : List String) ≠ [] ∧
      vocabList "hello world" ["hello there"] ≠ []) ∧
    (∃ r, check_plagiarism "hello world" ["hello there"] = .ok r ∧
      r.length = (["hello there"] : List String).length ∧
      ∀ i, i < (["hello there"] : List String).length →
        r.getD i ("", "") =
          ((["hello there"] : List String).getD i "",
            fmtPct ((tfidfScores "hello world" ["hello there"]).getD i 0)) ∧
        pctShape (fmtPct ((tfidfScores "hello world" ["hello there"]).getD i 0))) :=
  ⟨⟨by decide, by decide, by decide⟩,
    C10_result_shape "hello world" ["hello there"] (by decide) (by decide) (by decide)⟩
